import Mathlib

/-!
Verification of the smallhttp embedded HTTP/1.1 client.

Shallow embedding of the three source files:
  * src/traits.rs  — the Channel trait, its buffered read primitives and StringChannel
  * src/url.rs     — the URL parser
  * src/lib.rs     — the header vocabulary and the Client state machine

Rust strings and byte slices are modelled as `List Nat` of their UTF-8 bytes.
A channel is modelled by its unread content (a byte list served one byte at a
time, signalling EndOfStream exactly when exhausted, which is the Channel
contract stated by the spec), together with scripted failures for `open`/`send`
and a record of the opened destination and of all bytes accepted by `send`, so
that wire-format and fail-stop claims can be stated over arbitrary channel
behaviours.
-/

set_option maxHeartbeats 1000000
set_option maxRecDepth 100000

deriving instance DecidableEq for Except

/-- Byte list of an ASCII string literal (for ASCII strings the character codes
are exactly the UTF-8 bytes). -/
def ascii (s : String) : List Nat := s.data.map Char.toNat

/-- UTF-8 validation automaton: `exp` is the list of (inclusive lower,
exclusive upper) bounds still expected for continuation bytes of the current
character. -/
def utf8ValidAux : List (Nat × Nat) → List Nat → Bool
  | [], [] => true
  | _ :: _, [] => false
  | (lo, hi) :: exp, c :: rest => (decide (lo ≤ c ∧ c < hi)) && utf8ValidAux exp rest
  | [], b :: rest =>
    if b < 128 then utf8ValidAux [] rest
    else if b < 194 then false
    else if b < 224 then utf8ValidAux [(128, 192)] rest
    else if b = 224 then utf8ValidAux [(160, 192), (128, 192)] rest
    else if b = 237 then utf8ValidAux [(128, 160), (128, 192)] rest
    else if b < 240 then utf8ValidAux [(128, 192), (128, 192)] rest
    else if b = 240 then utf8ValidAux [(144, 192), (128, 192), (128, 192)] rest
    else if b < 244 then utf8ValidAux [(128, 192), (128, 192), (128, 192)] rest
    else if b = 244 then utf8ValidAux [(128, 144), (128, 192), (128, 192)] rest
    else false

/-- UTF-8 validity of a byte sequence, the check performed by Rust's
str::from_utf8 (rejects stray continuation bytes, overlong forms, surrogates
and values above U+10FFFF). -/
def utf8Valid (l : List Nat) : Bool := utf8ValidAux [] l

/-- src/traits.rs: ChannelError. -/
inductive ChannelError where
  | SomethingWentWrong
  | InvalidHostName
  | UnableToConnect
  | EndOfStream
  | BufferFull
  | InvalidDelimiterChar
  | InvalidString
  | TlsUnsupported
deriving DecidableEq, Repr

/-- Result of the read_string_until loop on a channel with unread content `ch`:
the outcome together with the channel content left unread.  The attached proof
(a success consumes at least the byte completing the delimiter) is what makes
the response header loop terminate. -/
def RsuRes (ch : List Nat) :=
  { p : (Except ChannelError (List Nat)) × List Nat //
      ∀ s, p.1 = .ok s → p.2.length < ch.length }

/-- src/traits.rs lines 69-111, the loop body of Channel::read_string_until.
`acc` is data[0..i] (so i = acc.length), `delimPos`/`inDelim` are the partial
delimiter-match state.  The source indexes delim[delim_pos] unconditionally;
that index is in bounds whenever delim is non-empty (delim_pos is reset by an
early return before reaching delim.len()), so getD's default is unreachable
for the non-empty delimiters the claims are about. -/
def rsuAux (delim : List Nat) (maxLen : Nat) :
    (ch : List Nat) → (acc : List Nat) → (delimPos : Nat) → (inDelim : Bool) → RsuRes ch
  | [], acc, _, _ =>
    -- the loop condition i < max_len is checked before each recv
    if acc.length < maxLen then ⟨(.error .EndOfStream, []), fun _ h => Except.noConfusion h⟩
    else ⟨(.error .BufferFull, []), fun _ h => Except.noConfusion h⟩
  | value :: rest, acc, delimPos, inDelim =>
    if acc.length < maxLen then
      if inDelim ∧ delim.getD delimPos 0 ≠ value then
        ⟨(.error .InvalidDelimiterChar, rest), fun _ h => Except.noConfusion h⟩
      else if delim.getD delimPos 0 = value then
        if delimPos + 1 ≥ delim.length then
          if utf8Valid acc then
            ⟨(.ok acc, rest), fun _ _ => Nat.lt_succ_self rest.length⟩
          else ⟨(.error .InvalidString, rest), fun _ h => Except.noConfusion h⟩
        else
          let r := rsuAux delim maxLen rest acc (delimPos + 1) true
          ⟨r.val, fun s h => Nat.lt_succ_of_lt (r.property s h)⟩
      else
        let r := rsuAux delim maxLen rest (acc ++ [value]) delimPos inDelim
        ⟨r.val, fun s h => Nat.lt_succ_of_lt (r.property s h)⟩
    else ⟨(.error .BufferFull, value :: rest), fun _ h => Except.noConfusion h⟩

/-- Channel::read_string_until on a channel with unread content `ch` and a
caller scratch buffer of capacity `maxLen` (= data.len() in the source):
the result and the content left unread. -/
def readStringUntilRaw (ch : List Nat) (maxLen : Nat) (delim : List Nat) :
    (Except ChannelError (List Nat)) × List Nat :=
  (rsuAux delim maxLen ch [] 0 false).val

/-- src/traits.rs lines 36-53, Channel::read_to_end: reads byte-at-a-time until
`maxLen` bytes or end of stream (end of stream is turned into success).
Returns the bytes read and the content left unread. -/
def readToEnd : (ch : List Nat) → (maxLen : Nat) → List Nat × List Nat
  | ch, 0 => ([], ch)
  | [], _ + 1 => ([], [])
  | b :: rest, n + 1 =>
    let r := readToEnd rest n
    (b :: r.1, r.2)

/-- A channel, as the Client sees one through the Channel trait: unread input
content `rx` (served one byte at a time, EndOfStream once exhausted — the recv
contract the spec states), plus scripted failures for open/send so that claims
can quantify over failing transports, and a record of the open destination and
of the bytes accepted by send. -/
structure Chan where
  rx : List Nat
  sent : List Nat
  sendErrs : List (Option ChannelError)
  openErr : Option ChannelError
  openedWith : Option (List Nat × Nat × Bool)
deriving DecidableEq, Repr

/-- Channel::open as the client observes it: either the scripted failure, or
success recording the (host, port, tls) destination. -/
def chanOpen (ch : Chan) (host : List Nat) (port : Nat) (tls : Bool) :
    Except ChannelError Chan :=
  match ch.openErr with
  | some e => .error e
  | none => .ok { ch with openedWith := some (host, port, tls) }

/-- Channel::send / send_str as the client observes it: the next scripted
outcome; on success the bytes are appended to the record. -/
def chanSend (ch : Chan) (data : List Nat) : (Except ChannelError Nat) × Chan :=
  match ch.sendErrs with
  | some e :: rest => (.error e, { ch with sendErrs := rest })
  | none :: rest => (.ok data.length, { ch with sent := ch.sent ++ data, sendErrs := rest })
  | [] => (.ok data.length, { ch with sent := ch.sent ++ data })

/-- A sequence of send_str calls, stopping at the first failure. -/
def sendList : Chan → List (List Nat) → (Except ChannelError Unit) × Chan
  | ch, [] => (.ok (), ch)
  | ch, s :: rest =>
    match chanSend ch s with
    | (.error e, ch') => (.error e, ch')
    | (.ok _, ch') => sendList ch' rest

/-- Channel::read_string_until lifted to Chan. -/
def Chan.read_string_until (c : Chan) (maxLen : Nat) (delim : List Nat) :
    (Except ChannelError (List Nat)) × Chan :=
  let r := readStringUntilRaw c.rx maxLen delim
  (r.1, { c with rx := r.2 })

/-- src/traits.rs lines 116-128: StringChannel is a cursor over a fixed string. -/
structure StringChannel where
  pos : Nat
  data : List Nat
deriving DecidableEq, Repr

/-- The loop of StringChannel::recv (lines 139-160): `n` is max_len - i.
Note the source returns Err(EndOfStream) whenever the cursor hits the end
before i == max_len, discarding the bytes copied so far. -/
def scRecvGo : StringChannel → Nat → List Nat → (Except ChannelError (List Nat)) × StringChannel
  | ch, 0, acc => (.ok acc, ch)
  | ch, n + 1, acc =>
    if ch.pos ≥ ch.data.length then (.error .EndOfStream, ch)
    else scRecvGo { ch with pos := ch.pos + 1 } n (acc ++ [ch.data.getD ch.pos 0])

/-- StringChannel::recv: returns the bytes copied into the caller's buffer. -/
def StringChannel.recv (ch : StringChannel) (maxLen : Nat) :
    (Except ChannelError (List Nat)) × StringChannel :=
  scRecvGo ch maxLen []

/-! ## src/url.rs -/

/-- UrlParsingError; the Utf8Error/ParseIntError payloads are std error values
carrying no information the parser uses, so they are dropped. -/
inductive UrlParsingError where
  | Utf8Error
  | ParseIntError
  | DelimiterNotFound
  | UnexpectedError
deriving DecidableEq, Repr

/-- src/url.rs lines 32-40: split at the first `delim`, consuming it.
Returns (after, before) in the source's order. -/
def until_and_consume : List Nat → Nat → Except UrlParsingError (List Nat × List Nat)
  | [], _ => .error .DelimiterNotFound
  | b :: rest, d =>
    if b = d then .ok (rest, [])
    else
      match until_and_consume rest d with
      | .ok (a, bef) => .ok (a, b :: bef)
      | .error e => .error e

/-- src/url.rs lines 42-50: split at the first `delim`, keeping it in the tail. -/
def until_ : List Nat → Nat → Except UrlParsingError (List Nat × List Nat)
  | [], _ => .error .DelimiterNotFound
  | b :: rest, d =>
    if b = d then .ok (b :: rest, [])
    else
      match until_ rest d with
      | .ok (a, bef) => .ok (a, b :: bef)
      | .error e => .error e

/-- src/url.rs lines 52-59: index of the first occurrence of `delim`. -/
def first_pos_of : List Nat → Nat → Option Nat
  | [], _ => none
  | b :: rest, d =>
    if b = d then some 0
    else (first_pos_of rest d).map (· + 1)

/-- str::from_utf8 on a slice, as used by the URL parser (identity on the bytes,
failing on invalid UTF-8). -/
def toStr (s : List Nat) : Except UrlParsingError (List Nat) :=
  if utf8Valid s then .ok s else .error .Utf8Error

/-- Decimal value of a digit string (the fold performed by u16::from_str). -/
def decimalValue (p : List Nat) : Nat :=
  p.foldl (fun a b => a * 10 + (b - 48)) 0

/-- Digit-string part of u16::from_str: one or more decimal digits whose value
is at most 65535; anything else is a parse error (modelled as none). -/
def parseU16core (t : List Nat) : Option Nat :=
  if t = [] then none
  else if t.all (fun b => 48 ≤ b && b ≤ 57) then
    if decimalValue t ≤ 65535 then some (decimalValue t) else none
  else none

/-- u16::from_str: an optional leading '+' sign, then the digit string. -/
def parseU16 (s : List Nat) : Option Nat :=
  parseU16core (if s.headD 0 = 43 then s.tail else s)

/-- The fragment-stripping tail of parse_url (src/url.rs lines 100-107 and
123-130, identical in both branches): the remaining input is the path, with
everything from the first '#' removed. -/
def pathOf (r5 : List Nat) : Except UrlParsingError (List Nat) :=
  match first_pos_of r5 35 with
  | some _ =>
    match until_and_consume r5 35 with
    | .error e => .error e
    | .ok (_, pathB) => toStr pathB
  | none => toStr r5

/-- src/url.rs lines 62-135: parse_url, returning (scheme, host, port, path).
Byte values: 58 = ':', 47 = '/', 35 = '#'. -/
def parse_url (url : List Nat) : Except UrlParsingError (List Nat × List Nat × Nat × List Nat) :=
  match until_and_consume url 58 with
  | .error e => .error e
  | .ok (r1, schemeB) =>
  match toStr schemeB with
  | .error e => .error e
  | .ok scheme =>
  match until_and_consume r1 47 with
  | .error e => .error e
  | .ok (r2, _) =>
  match until_and_consume r2 47 with
  | .error e => .error e
  | .ok (r3, _) =>
  let defPort : Nat :=
    if scheme = ascii "http" then 80 else if scheme = ascii "https" then 443 else 0
  match first_pos_of r3 58, first_pos_of r3 47 with
  | some cp, some sp =>
    if cp < sp then
      -- a ':' before the '/': host:port followed by a path
      match until_and_consume r3 58 with
      | .error e => .error e
      | .ok (r4, hostB) =>
      match toStr hostB with
      | .error e => .error e
      | .ok host =>
      match until_ r4 47 with
      | .error e => .error e
      | .ok (r5, portB) =>
      match toStr portB with
      | .error e => .error e
      | .ok portS =>
      match parseU16 portS with
      | none => .error .ParseIntError
      | some port =>
        match pathOf r5 with
        | .error e => .error e
        | .ok path => .ok (scheme, host, port, path)
    else
      -- the ':' is after the '/', hence part of the path
      match until_ r3 47 with
      | .error e => .error e
      | .ok (r5, hostB) =>
      match toStr hostB with
      | .error e => .error e
      | .ok host =>
        match pathOf r5 with
        | .error e => .error e
        | .ok path => .ok (scheme, host, defPort, path)
  | some _, none =>
    -- no '/': the remainder is host:port
    match until_and_consume r3 58 with
    | .error e => .error e
    | .ok (r4, hostB) =>
    match toStr hostB with
    | .error e => .error e
    | .ok host =>
    match toStr r4 with
    | .error e => .error e
    | .ok portS =>
    match parseU16 portS with
    | none => .error .ParseIntError
    | some port => .ok (scheme, host, port, ascii "/")
  | none, none =>
    -- neither ':' nor '/': the remainder is the host
    match toStr r3 with
    | .error e => .error e
    | .ok host => .ok (scheme, host, defPort, ascii "/")
  | none, some _ =>
    -- a '/' but no ':': split host and path
    match until_ r3 47 with
    | .error e => .error e
    | .ok (r5, hostB) =>
    match toStr hostB with
    | .error e => .error e
    | .ok host =>
      match pathOf r5 with
      | .error e => .error e
      | .ok path => .ok (scheme, host, defPort, path)

/-- Well-formed URL assembled from its components, for the parser claims:
scheme://host[:port][/path][#frag] (the path component carries its leading '/'). -/
def mkUrl (s h : List Nat) (port path frag : Option (List Nat)) : List Nat :=
  s ++ [58, 47, 47] ++ h ++
    (match port with | some p => 58 :: p | none => []) ++
    (match path with | some pl => pl | none => []) ++
    (match frag with | some fr => 35 :: fr | none => [])

/-- The port the claim expects: the explicit port's decimal value, else the
scheme default (80 for http, 443 for https, 0 otherwise). -/
def expectedPort (s : List Nat) (port : Option (List Nat)) : Nat :=
  match port with
  | some p => decimalValue p
  | none => if s = ascii "http" then 80 else if s = ascii "https" then 443 else 0

/-! ## src/lib.rs -/

/-- HttpMethod. -/
inductive HttpMethod where
  | Get | Head | Post | Put | Delete
deriving DecidableEq, Repr

/-- HttpMethod::as_str. -/
def HttpMethod.as_str : HttpMethod → List Nat
  | .Get => ascii "GET"
  | .Head => ascii "HEAD"
  | .Post => ascii "POST"
  | .Put => ascii "PUT"
  | .Delete => ascii "DELETE"

/-- HttpHeader (src/lib.rs lines 51-62). -/
inductive HttpHeader where
  | Connection | ContentLength | ContentType | Date | Etag | Host | LastModified | Server
  | Other (name : List Nat)
deriving DecidableEq, Repr

/-- From String for HttpHeader (src/lib.rs lines 64-86): the name token read
off the wire, colon included. -/
def HttpHeader.fromString (item : List Nat) : HttpHeader :=
  if item = ascii "Connection:" then .Connection
  else if item = ascii "Content-Length:" then .ContentLength
  else if item = ascii "Content-Type:" then .ContentType
  else if item = ascii "Date:" then .Date
  else if item = ascii "ETag:" then .Etag
  else if item = ascii "Host:" then .Host
  else if item = ascii "Last-Modified:" then .LastModified
  else if item = ascii "Server:" then .Server
  else .Other item

/-- HttpHeader::as_string (src/lib.rs lines 88-103), the trailing space
included.  The LastModified arm reproduces the source exactly: it writes
"LastModified: " without the hyphen. -/
def HttpHeader.as_string : HttpHeader → List Nat
  | .Connection => ascii "Connection: "
  | .ContentLength => ascii "Content-Length: "
  | .ContentType => ascii "Content-Type: "
  | .Date => ascii "Date: "
  | .Etag => ascii "ETag: "
  | .Host => ascii "Host: "
  | .LastModified => ascii "LastModified: "
  | .Server => ascii "Server: "
  | .Other name => name ++ [32]

/-- static HTTP_VERSION. -/
def HTTP_VERSION : List Nat := ascii " HTTP/1.1\r\n"

/-- static LINE_END. -/
def LINE_END : List Nat := ascii "\r\n"

/-- ClientState (src/lib.rs lines 108-115). -/
inductive ClientState where
  | Error | Created | HeadersOrBody | ReadResponse | Done
deriving DecidableEq, Repr

/-- HttpError (src/lib.rs lines 117-126). -/
inductive HttpError where
  | BadState
  | BadUrl (e : UrlParsingError)
  | ChannelError (e : ChannelError)
  | UnsupportedScheme
  | UnknownError
  | InvalidVersion
  | InvalidStatusCode
deriving DecidableEq, Repr

/-- Client (src/lib.rs lines 153-159). -/
structure Client where
  channel : Chan
  state : ClientState
  method : HttpMethod
  url : List Nat
  headers_flushed : Bool
deriving DecidableEq, Repr

/-- Outcome of one public Client operation: `assertFail` models the panic of
the assert_eq! state assertions (and of the from_utf8(..).unwrap() calls);
`err` carries the client as the failed call leaves it (Rust mutates self in
place before returning Err). -/
inductive OpRes (β : Type) where
  | assertFail
  | err (e : HttpError) (c : Client)
  | ok (v : β)
deriving DecidableEq, Repr

/-- Client::open (src/lib.rs lines 182-208). -/
def clientOpen (c : Client) : OpRes Client :=
  if c.state ≠ ClientState.Created then .assertFail
  else
    -- the source moves the state to Error on entry and restores it only at the
    -- end; every exit below carries that state explicitly
    match parse_url c.url with
    | .error e => .err (.BadUrl e) { c with state := ClientState.Error }
    | .ok (scheme, host, port, path) =>
      if scheme ≠ ascii "http" ∧ scheme ≠ ascii "https" then
        .err .UnsupportedScheme { c with state := ClientState.Error }
      else
        match chanOpen c.channel host port (decide (scheme = ascii "https")) with
        | .error e => .err (.ChannelError e) { c with state := ClientState.Error }
        | .ok ch1 =>
          match sendList ch1
              [c.method.as_str, ascii " ", path, HTTP_VERSION,
               HttpHeader.as_string HttpHeader.Host, host, LINE_END] with
          | (.error e, ch2) =>
            .err (.ChannelError e) { c with state := ClientState.Error, channel := ch2 }
          | (.ok _, ch2) => .ok { c with state := ClientState.HeadersOrBody, channel := ch2 }

/-- The three send_str calls per header of Client::headers. -/
def headerLines : List (HttpHeader × List Nat) → List (List Nat)
  | [] => []
  | (n, v) :: rest => HttpHeader.as_string n :: v :: LINE_END :: headerLines rest

/-- Client::headers (src/lib.rs lines 210-226). -/
def clientHeaders (c : Client) (hs : List (HttpHeader × List Nat)) : OpRes Client :=
  if c.state ≠ ClientState.HeadersOrBody then .assertFail
  else
    match sendList c.channel (headerLines hs) with
    | (.error e, ch) => .err (.ChannelError e) { c with state := ClientState.Error, channel := ch }
    | (.ok _, ch) => .ok { c with state := ClientState.HeadersOrBody, channel := ch }

/-- Client::header (src/lib.rs lines 228-232). -/
def clientHeader (c : Client) (n : HttpHeader) (v : List Nat) : OpRes Client :=
  clientHeaders c [(n, v)]

/-- Client::_send (src/lib.rs lines 234-254).  Note headers_flushed is set
before the separator send, so it stays set even if that send fails. -/
def clientSendAux (c : Client) (body : List Nat) (finalState : ClientState) : OpRes Client :=
  if c.state ≠ ClientState.HeadersOrBody then .assertFail
  else
    match (if ¬ c.headers_flushed then
            match chanSend c.channel LINE_END with
            | (.error e, ch) =>
              OpRes.err (HttpError.ChannelError e)
                { c with state := ClientState.Error, headers_flushed := true, channel := ch }
            | (.ok _, ch) =>
              OpRes.ok { c with state := ClientState.Error, headers_flushed := true, channel := ch }
          else OpRes.ok { c with state := ClientState.Error } : OpRes Client) with
    | .assertFail => .assertFail
    | .err e c' => .err e c'
    | .ok c1 =>
      if body ≠ [] then
        match chanSend c1.channel body with
        | (.error e, ch) => .err (.ChannelError e) { c1 with channel := ch }
        | (.ok _, ch) => .ok { c1 with channel := ch, state := finalState }
      else .ok { c1 with state := finalState }

/-- Client::body. -/
def clientBody (c : Client) (b : List Nat) : OpRes Client :=
  clientSendAux c b ClientState.HeadersOrBody

/-- Client::send. -/
def clientSend (c : Client) (b : List Nat) : OpRes Client :=
  clientSendAux c b ClientState.ReadResponse

/-- The parsed response returned by Client::response; the body is the unread
remainder of the client's channel (Rust's Response.body re-borrows the channel). -/
structure RespData where
  status_code : Nat
  status : List Nat
  headers : List (HttpHeader × List Nat)
deriving DecidableEq, Repr

/-- Outcome of the header-reading loop of Client::response. -/
inductive HLRes where
  | assertFail
  | err (e : ChannelError) (rx : List Nat)
  | ok (hs : List (HttpHeader × List Nat)) (rx : List Nat)
deriving DecidableEq, Repr

/-- The header loop of Client::response (src/lib.rs lines 302-320): reads
CRLF-terminated lines through the fixed 256-byte scratch buffer until an empty
line; each line is re-read through a one-line StringChannel to split the name
token at the first space; the value is read and stored only when the filter
accepts the converted header name.  assertFail models the
from_utf8(..).unwrap() on the value bytes. -/
def headerLoop (filt : HttpHeader → Bool) (rx : List Nat)
    (acc : List (HttpHeader × List Nat)) : HLRes :=
  match h : readStringUntilRaw rx 256 [13, 10] with
  | (.error e, rem) => .err e rem
  | (.ok line, rx2) =>
    if line = [] then .ok acc rx2
    else
      match readStringUntilRaw line 256 [32] with
      | (.error e, _) => .err e rx2
      | (.ok name, lineRest) =>
        if filt (HttpHeader.fromString name) then
          if utf8Valid (readToEnd lineRest 256).1 then
            headerLoop filt rx2 (acc ++ [(HttpHeader.fromString name, (readToEnd lineRest 256).1)])
          else .assertFail
        else headerLoop filt rx2 acc
termination_by rx.length
decreasing_by
  all_goals
    have hp := (rsuAux [13, 10] 256 rx [] 0 false).property
    unfold readStringUntilRaw at h
    have h1 := hp line (by rw [h])
    rw [h] at h1
    exact h1

/-- Update the unread content of a client's channel. -/
def setRx (c : Client) (rx : List Nat) : Client :=
  { c with channel := { c.channel with rx := rx } }

/-- The body of Client::response after the state assertion (src/lib.rs lines
281-329); the caller has already moved the state to Error.  The status line is
read off the channel, then re-parsed through a one-line StringChannel; exactly
HTTP/1.0 and HTTP/1.1 are accepted; the status code goes through u16::from_str;
the reason phrase is the remainder of the line (via read_to_end, then a
from_utf8 unwrap, modelled by assertFail on invalid UTF-8). -/
def responseCore (filt : HttpHeader → Bool) (c : Client) : OpRes (RespData × Client) :=
  match readStringUntilRaw c.channel.rx 256 [13, 10] with
  | (.error e, rem) => .err (.ChannelError e) (setRx c rem)
  | (.ok statusLine, rx1) =>
    match readStringUntilRaw statusLine 256 [32] with
    | (.error e, _) => .err (.ChannelError e) (setRx c rx1)
    | (.ok ver, nst1) =>
      if ver ≠ ascii "HTTP/1.0" ∧ ver ≠ ascii "HTTP/1.1" then .err .InvalidVersion (setRx c rx1)
      else
        match readStringUntilRaw nst1 256 [32] with
        | (.error e, _) => .err (.ChannelError e) (setRx c rx1)
        | (.ok codeTok, nst2) =>
          match parseU16 codeTok with
          | none => .err .InvalidStatusCode (setRx c rx1)
          | some code =>
            if utf8Valid (readToEnd nst2 256).1 then
              match headerLoop filt rx1 [] with
              | .assertFail => .assertFail
              | .err e rem => .err (.ChannelError e) (setRx c rem)
              | .ok hs rem =>
                .ok (⟨code, (readToEnd nst2 256).1, hs⟩,
                     { setRx c rem with state := ClientState.Done })
            else .assertFail

/-- Client::response (src/lib.rs lines 270-329): an implicit empty send when
still in HeadersOrBody, then the ReadResponse assertion, then the parse. -/
def clientResponse (filt : HttpHeader → Bool) (c : Client) : OpRes (RespData × Client) :=
  match (if c.state = ClientState.HeadersOrBody then clientSend c [] else .ok c : OpRes Client) with
  | .assertFail => .assertFail
  | .err e c' => .err e c'
  | .ok c0 =>
    if c0.state ≠ ClientState.ReadResponse then .assertFail
    else responseCore filt { c0 with state := ClientState.Error }

/-- One public protocol operation of the Client, for the fail-stop claim. -/
inductive ProtoOp where
  | opOpen
  | opHeaders (hs : List (HttpHeader × List Nat))
  | opHeader (n : HttpHeader) (v : List Nat)
  | opBody (b : List Nat)
  | opSend (b : List Nat)
  | opResponse (f : HttpHeader → Bool)

/-- Run one protocol operation, keeping only the resulting client (response's
parsed data is dropped; its client outcome is what the fail-stop claim is
about). -/
def runOp : ProtoOp → Client → OpRes Client
  | .opOpen, c => clientOpen c
  | .opHeaders hs, c => clientHeaders c hs
  | .opHeader n v, c => clientHeader c n v
  | .opBody b, c => clientBody c b
  | .opSend b, c => clientSend c b
  | .opResponse f, c =>
    match clientResponse f c with
    | .assertFail => .assertFail
    | .err e c' => .err e c'
    | .ok (_, c') => .ok c'

/-- The state in which each protocol operation's assertion expects to be
called (response accepts HeadersOrBody as well, through the implicit send). -/
def validState : ProtoOp → ClientState
  | .opOpen => ClientState.Created
  | .opHeaders _ => ClientState.HeadersOrBody
  | .opHeader _ _ => ClientState.HeadersOrBody
  | .opBody _ => ClientState.HeadersOrBody
  | .opSend _ => ClientState.HeadersOrBody
  | .opResponse _ => ClientState.ReadResponse

/-- The header block of a response on the wire: `Name SP value CRLF` per line. -/
def encodeHeaders : List (List Nat × List Nat) → List Nat
  | [] => []
  | (n, v) :: rest => n ++ [32] ++ v ++ [13, 10] ++ encodeHeaders rest

/-- The (header, value) pairs response(filter) is claimed to store: the lines
whose converted name token the filter accepts, in wire order. -/
def storedOf (filt : HttpHeader → Bool) (hdrs : List (List Nat × List Nat)) :
    List (HttpHeader × List Nat) :=
  (hdrs.filter (fun p => filt (HttpHeader.fromString p.1))).map
    (fun p => (HttpHeader.fromString p.1, p.2))

/-- Well-formedness of one header line for the response round-trip claim:
no CR or SP in the name, no CR in the value, ASCII content, and the line fits
the 256-byte scratch buffer strictly. -/
def wfHeader (p : List Nat × List Nat) : Prop :=
  13 ∉ p.1 ∧ 32 ∉ p.1 ∧ 13 ∉ p.2 ∧
  (∀ b ∈ p.1, b < 128) ∧ (∀ b ∈ p.2, b < 128) ∧
  p.1.length + 1 + p.2.length < 256

instance (p : List Nat × List Nat) : Decidable (wfHeader p) := by
  unfold wfHeader
  infer_instance

/-! ## Basic lemmas -/

/-- An all-ASCII byte list is valid UTF-8. -/
theorem utf8Valid_of_ascii : ∀ (l : List Nat), (∀ b ∈ l, b < 128) → utf8Valid l = true := by
  intro l
  induction l with
  | nil => intro _; rfl
  | cons b rest ih =>
    intro h
    have hb : b < 128 := h b (by simp)
    show utf8ValidAux [] (b :: rest) = true
    rw [utf8ValidAux, if_pos hb]
    exact ih (fun x hx => h x (by simp [hx]))

/-- Step lemma: buffer exhausted. -/
theorem rsuAux_full (d : List Nat) (maxLen : Nat) (ch acc : List Nat) (k : Nat) (b : Bool)
    (h : ¬ acc.length < maxLen) :
    (rsuAux d maxLen ch acc k b).val = (.error .BufferFull, ch) := by
  cases ch <;> rw [rsuAux, if_neg h]

/-- Step lemma: channel exhausted. -/
theorem rsuAux_nil (d : List Nat) (maxLen : Nat) (acc : List Nat) (k : Nat) (b : Bool)
    (h : acc.length < maxLen) :
    (rsuAux d maxLen [] acc k b).val = (.error .EndOfStream, []) := by
  rw [rsuAux, if_pos h]

/-- Step lemma: a byte breaking a partial delimiter match. -/
theorem rsuAux_mismatch (d : List Nat) (maxLen : Nat) (v : Nat) (rest acc : List Nat) (k : Nat)
    (h : acc.length < maxLen) (hne : d.getD k 0 ≠ v) :
    (rsuAux d maxLen (v :: rest) acc k true).val = (.error .InvalidDelimiterChar, rest) := by
  rw [rsuAux, if_pos h]
  rw [if_pos (⟨rfl, hne⟩ : (true = true) ∧ d.getD k 0 ≠ v)]

/-- Step lemma: the byte completing the delimiter. -/
theorem rsuAux_match_done (d : List Nat) (maxLen : Nat) (v : Nat) (rest acc : List Nat) (k : Nat)
    (b : Bool) (h : acc.length < maxLen) (hv : d.getD k 0 = v) (hk : d.length ≤ k + 1) :
    (rsuAux d maxLen (v :: rest) acc k b).val =
      (if utf8Valid acc then (.ok acc, rest) else (.error .InvalidString, rest)) := by
  rw [rsuAux, if_pos h]
  rw [if_neg (fun hc => hc.2 hv), if_pos hv, if_pos hk]
  by_cases hu : utf8Valid acc
  · rw [if_pos hu, if_pos hu]
  · rw [if_neg hu, if_neg hu]

/-- Step lemma: a byte advancing inside the delimiter. -/
theorem rsuAux_match_more (d : List Nat) (maxLen : Nat) (v : Nat) (rest acc : List Nat) (k : Nat)
    (b : Bool) (h : acc.length < maxLen) (hv : d.getD k 0 = v) (hk : k + 1 < d.length) :
    (rsuAux d maxLen (v :: rest) acc k b).val = (rsuAux d maxLen rest acc (k + 1) true).val := by
  rw [rsuAux, if_pos h]
  rw [if_neg (fun hc => hc.2 hv), if_pos hv, if_neg (by omega : ¬ d.length ≤ k + 1)]

/-- Step lemma: an ordinary byte copied into the buffer. -/
theorem rsuAux_buffer (d : List Nat) (maxLen : Nat) (v : Nat) (rest acc : List Nat) (k : Nat)
    (h : acc.length < maxLen) (hv : d.getD k 0 ≠ v) :
    (rsuAux d maxLen (v :: rest) acc k false).val =
      (rsuAux d maxLen rest (acc ++ [v]) k false).val := by
  rw [rsuAux, if_pos h]
  rw [if_neg (fun hc => nomatch hc.1), if_neg hv]

/-- Buffering phase: ordinary bytes (none equal to the delimiter head) are
accumulated one by one. -/
theorem rsuAux_buffer_phase (d0 : Nat) (d' : List Nat) (maxLen : Nat) :
    ∀ (u acc ch2 : List Nat), d0 ∉ u → acc.length + u.length ≤ maxLen →
    (rsuAux (d0 :: d') maxLen (u ++ ch2) acc 0 false).val =
      (rsuAux (d0 :: d') maxLen ch2 (acc ++ u) 0 false).val := by
  intro u
  induction u with
  | nil => intro acc ch2 _ _; simp
  | cons v u' ih =>
    intro acc ch2 hmem hlen
    have hne : (d0 :: d').getD 0 0 ≠ v := by
      simp only [List.getD_cons_zero]
      exact fun hEq => hmem (hEq ▸ List.mem_cons_self d0 u')
    have hacc : acc.length < maxLen := by
      simp only [List.length_cons] at hlen; omega
    rw [List.cons_append, rsuAux_buffer _ _ _ _ _ _ hacc hne]
    have := ih (acc ++ [v]) ch2 (fun hm => hmem (List.mem_cons_of_mem v hm))
      (by simp at hlen ⊢; omega)
    rw [this, List.append_assoc, List.singleton_append]

/-- Delimiter phase: from match position `k` the remaining delimiter bytes are
consumed and the accumulated slice is returned. -/
theorem rsuAux_delim_phase (d : List Nat) (maxLen : Nat) :
    ∀ (n k : Nat) (acc rest : List Nat) (b : Bool), n = d.length - k → k < d.length →
    acc.length < maxLen → utf8Valid acc →
    (rsuAux d maxLen (d.drop k ++ rest) acc k b).val = (.ok acc, rest) := by
  intro n
  induction n with
  | zero => intro k acc rest b hn hk _ _; omega
  | succ n ih =>
    intro k acc rest b hn hk hacc hu
    have hdrop := List.drop_eq_getElem_cons hk
    have hgetD : d.getD k 0 = d[k] := List.getD_eq_getElem d 0 hk
    by_cases hlast : d.length ≤ k + 1
    · have hde : d.drop (k + 1) = [] := List.drop_eq_nil_of_le hlast
      rw [hdrop, hde, List.cons_append, List.nil_append,
        rsuAux_match_done d maxLen _ _ _ _ _ hacc hgetD hlast, if_pos hu]
    · have hk1 : k + 1 < d.length := by omega
      rw [hdrop, List.cons_append,
        rsuAux_match_more d maxLen _ _ _ _ _ hacc hgetD hk1]
      exact ih (k + 1) acc rest true (by omega) hk1 hacc hu

/-- Full specification of a successful read_string_until: content
u ++ delim ++ rest with no delimiter-head byte in u and u fitting strictly in
the buffer yields u, consuming exactly u ++ delim. -/
theorem readStringUntilRaw_spec (d0 : Nat) (d' u rest : List Nat) (maxLen : Nat)
    (hmem : d0 ∉ u) (hlen : u.length < maxLen) (hu : utf8Valid u) :
    readStringUntilRaw (u ++ (d0 :: d') ++ rest) maxLen (d0 :: d') = (.ok u, rest) := by
  unfold readStringUntilRaw
  rw [List.append_assoc, rsuAux_buffer_phase d0 d' maxLen u [] ((d0 :: d') ++ rest) hmem
    (by simpa using Nat.le_of_lt hlen)]
  have := rsuAux_delim_phase (d0 :: d') maxLen (d0 :: d').length 0 u rest false
    (by simp) (by simp) hlen hu
  simpa using this

/-- read_string_until fails with BufferFull when the first maxLen bytes fill
the buffer with no delimiter-head byte among them; those bytes are consumed. -/
theorem readStringUntilRaw_bufferFull (d0 : Nat) (d' ch : List Nat) (maxLen : Nat)
    (hmem : ∀ b ∈ ch.take maxLen, b ≠ d0) (hlen : maxLen ≤ ch.length) :
    readStringUntilRaw ch maxLen (d0 :: d') = (.error .BufferFull, ch.drop maxLen) := by
  unfold readStringUntilRaw
  have hch : ch = ch.take maxLen ++ ch.drop maxLen := (List.take_append_drop maxLen ch).symm
  have htl : (ch.take maxLen).length = maxLen := List.length_take_of_le hlen
  conv_lhs => rw [hch]
  rw [rsuAux_buffer_phase d0 d' maxLen (ch.take maxLen) [] (ch.drop maxLen)
    (fun hm => (hmem d0 hm) rfl) (by rw [htl]; simp)]
  rw [rsuAux_full _ _ _ _ _ _ (by simp [htl])]

/-- read_string_until fails with EndOfStream when the channel runs out before
any delimiter-head byte, the buffer not being full. -/
theorem readStringUntilRaw_endOfStream (d0 : Nat) (d' ch : List Nat) (maxLen : Nat)
    (hmem : d0 ∉ ch) (hlen : ch.length < maxLen) :
    readStringUntilRaw ch maxLen (d0 :: d') = (.error .EndOfStream, []) := by
  unfold readStringUntilRaw
  have := rsuAux_buffer_phase d0 d' maxLen ch [] [] hmem (by simpa using Nat.le_of_lt hlen)
  rw [List.append_nil] at this
  rw [this, rsuAux_nil _ _ _ _ _ (by simpa using hlen)]

/-- Delimiter phase broken off: the delimiter matched from position k up to
position j, then byte `v` differs from d[j]: InvalidDelimiterChar, the
partially matched bytes and `v` being consumed. -/
theorem rsuAux_delim_mismatch (d : List Nat) (maxLen : Nat) :
    ∀ (n k j : Nat) (acc rest : List Nat) (v : Nat), n = j - k → 1 ≤ k → k ≤ j →
    j < d.length → v ≠ d.getD j 0 → acc.length < maxLen →
    (rsuAux d maxLen ((d.drop k).take (j - k) ++ v :: rest) acc k true).val =
      (.error .InvalidDelimiterChar, rest) := by
  intro n
  induction n with
  | zero =>
    intro k j acc rest v hn hk1 hkj hj hv hacc
    have hkj' : j = k := by omega
    subst hkj'
    have h0 : j - j = 0 := Nat.sub_self j
    rw [h0, List.take_zero, List.nil_append]
    exact rsuAux_mismatch d maxLen v rest acc j hacc (fun hEq => hv hEq.symm)
  | succ n ih =>
    intro k j acc rest v hn hk1 hkj hj hv hacc
    have hkj' : k < j := by omega
    have hk : k < d.length := by omega
    have hdrop := List.drop_eq_getElem_cons hk
    have hgetD : d.getD k 0 = d[k] := List.getD_eq_getElem d 0 hk
    have hjk : j - k = (j - (k + 1)) + 1 := by omega
    rw [hdrop, hjk, List.take_succ_cons, List.cons_append,
      rsuAux_match_more d maxLen _ _ _ _ _ hacc hgetD (by omega)]
    exact ih (k + 1) j acc rest v (by omega) (by omega) (by omega) hj hv hacc

/-- readToEnd is take/drop. -/
theorem readToEnd_eq : ∀ (ch : List Nat) (n : Nat), readToEnd ch n = (ch.take n, ch.drop n) := by
  intro ch
  induction ch with
  | nil => intro n; cases n <;> simp [readToEnd]
  | cons b rest ih => intro n; cases n <;> simp [readToEnd, ih]

theorem sanity_parse_url_basic :
    parse_url (ascii "http://localhost:8080/index.html#hash") =
      .ok (ascii "http", ascii "localhost", 8080, ascii "/index.html") := by decide

theorem sanity_parse_url_default :
    parse_url (ascii "https://localhost") = .ok (ascii "https", ascii "localhost", 443, ascii "/") := by
  decide

theorem sanity_read_string_until :
    readStringUntilRaw (ascii "More Data\r\nX") 128 [13, 10] = (.ok (ascii "More Data"), [88]) := by
  decide

/-! ## StringChannel::recv lemmas -/

/-- scRecvGo signals EndOfStream exactly when fewer than the requested number
of bytes remain unread. -/
theorem scRecvGo_eos_iff : ∀ (n p : Nat) (dt acc : List Nat),
    (scRecvGo ⟨p, dt⟩ n acc).1 = .error .EndOfStream ↔ dt.length - p < n := by
  intro n
  induction n with
  | zero => intro p dt acc; simp [scRecvGo]
  | succ n ih =>
    intro p dt acc
    simp only [scRecvGo]
    by_cases hp : p ≥ dt.length
    · rw [if_pos hp]
      simp
      omega
    · rw [if_neg hp, ih]
      omega

/-- scRecvGo returns the requested bytes when enough remain. -/
theorem scRecvGo_ok : ∀ (n p : Nat) (dt acc : List Nat), n + p ≤ dt.length →
    (scRecvGo ⟨p, dt⟩ n acc).1 = .ok (acc ++ (dt.drop p).take n) := by
  intro n
  induction n with
  | zero => intro p dt acc _; simp [scRecvGo]
  | succ n ih =>
    intro p dt acc hle
    have hp : ¬ (p ≥ dt.length) := by omega
    have hpos : p < dt.length := by omega
    simp only [scRecvGo]
    rw [if_neg hp, ih (p + 1) dt (acc ++ [dt.getD p 0]) (by omega)]
    have hdrop : dt.drop p = dt[p] :: dt.drop (p + 1) := List.drop_eq_getElem_cons hpos
    have hgetD : dt.getD p 0 = dt[p] := List.getD_eq_getElem dt 0 hpos
    rw [hgetD, hdrop, List.take_succ_cons, List.append_assoc, List.singleton_append]

/-! ## Claim theorems for the read primitives -/

/-- Claim C1, counterexample to the claim as stated: with scratch capacity 1
and channel content [97] ++ [13,10] ++ [98], the prefix before the delimiter
has length 1 ≤ capacity and contains no delimiter-head byte, yet
read_string_until returns BufferFull (with the delimiter still unread), not
the prefix. -/
theorem c1_boundary_counterexample :
    Chan.read_string_until ⟨[97, 13, 10, 98], [], [], none, none⟩ 1 [13, 10] =
      (.error .BufferFull, ⟨[13, 10, 98], [], [], none, none⟩) ∧
    ([97] : List Nat).length ≤ 1 ∧ (13 : Nat) ∉ ([97] : List Nat) := by decide

/-- Claim C1 (amended: the prefix before the delimiter must be strictly
shorter than the scratch buffer's capacity): on channel content
u ++ delim ++ rest where u contains no byte equal to the delimiter's first
byte and u.length < capacity, read_string_until returns exactly u (the
delimiter is consumed but never copied to the buffer) and leaves the channel
positioned exactly at the start of rest. -/
theorem c1_read_string_until_spec (c : Chan) (u d' rest : List Nat) (d0 maxLen : Nat)
    (hrx : c.rx = u ++ (d0 :: d') ++ rest) (hmem : d0 ∉ u) (hlen : u.length < maxLen)
    (hu : utf8Valid u = true) :
    Chan.read_string_until c maxLen (d0 :: d') = (.ok u, { c with rx := rest }) := by
  unfold Chan.read_string_until
  rw [hrx, readStringUntilRaw_spec d0 d' u rest maxLen hmem hlen hu]

theorem c1_read_string_until_spec_witness :
    Chan.read_string_until ⟨ascii "ab\r\ncd", [], [], none, none⟩ 16 [13, 10] =
      (.ok (ascii "ab"), ⟨ascii "cd", [], [], none, none⟩) := by
  exact c1_read_string_until_spec ⟨ascii "ab\r\ncd", [], [], none, none⟩
    (ascii "ab") [10] (ascii "cd") 13 16 (by decide) (by decide) (by decide) (by decide)

/-- Claim C7: read_string_until fails with BufferFull when the content before
the delimiter exceeds the buffer's capacity (no delimiter byte having been
seen), and with EndOfStream when the channel is exhausted before any
delimiter-head byte appears (the buffer not having filled first). -/
theorem c7_read_string_until_errors (c : Chan) (u d' rest : List Nat) (d0 maxLen : Nat) :
    (c.rx = u ++ (d0 :: d') ++ rest → d0 ∉ u → maxLen < u.length →
      (Chan.read_string_until c maxLen (d0 :: d')).1 = .error .BufferFull) ∧
    (d0 ∉ c.rx → c.rx.length < maxLen →
      (Chan.read_string_until c maxLen (d0 :: d')).1 = .error .EndOfStream) := by
  constructor
  · intro hrx hmem hlen
    unfold Chan.read_string_until
    rw [hrx, readStringUntilRaw_bufferFull d0 d' _ maxLen ?hm ?hl]
    case hm =>
      intro x hx
      have hxu : x ∈ u := by
        have h1 : (u ++ (d0 :: d') ++ rest).take maxLen = u.take maxLen := by
          rw [List.append_assoc, List.take_append_of_le_length (by omega)]
        rw [h1] at hx
        exact List.take_subset maxLen u hx
      exact fun hEq => hmem (hEq ▸ hxu)
    case hl => simp [List.length_append]; omega
  · intro hmem hlen
    unfold Chan.read_string_until
    rw [readStringUntilRaw_endOfStream d0 d' _ maxLen hmem hlen]

theorem c7_read_string_until_errors_witness :
    (Chan.read_string_until ⟨ascii "abc\r\nZ", [], [], none, none⟩ 2 [13, 10]).1 =
      .error .BufferFull ∧
    (Chan.read_string_until ⟨ascii "abc", [], [], none, none⟩ 16 [13, 10]).1 =
      .error .EndOfStream := by
  constructor
  · exact (c7_read_string_until_errors ⟨ascii "abc\r\nZ", [], [], none, none⟩
      (ascii "abc") [10] [90] 13 2).1 (by decide) (by decide) (by decide)
  · exact (c7_read_string_until_errors ⟨ascii "abc", [], [], none, none⟩
      [] [10] [] 13 16).2 (by decide) (by decide)

/-- Claim C8: once at least one byte matching a proper non-empty prefix of the
delimiter has been consumed, a byte differing from the next expected delimiter
byte makes read_string_until fail with InvalidDelimiterChar; the partially
matched delimiter bytes (and the mismatching byte) are consumed and never
replayed as ordinary data. -/
theorem c8_invalid_delimiter_char (c : Chan) (u rest d : List Nat) (j b maxLen : Nat)
    (hd : 2 ≤ d.length) (hj1 : 1 ≤ j) (hj : j < d.length)
    (hmem : ∀ x ∈ u, x ≠ d.getD 0 0) (hlen : u.length < maxLen)
    (hrx : c.rx = u ++ d.take j ++ b :: rest) (hb : b ≠ d.getD j 0) :
    Chan.read_string_until c maxLen d = (.error .InvalidDelimiterChar, { c with rx := rest }) := by
  obtain ⟨d0, d'⟩ : ∃ d0 d', d = d0 :: d' := by
    cases d with
    | nil => simp at hd
    | cons x xs => exact ⟨x, xs, rfl⟩
  obtain ⟨d', rfl⟩ := d'
  obtain ⟨j', rfl⟩ : ∃ j', j = j' + 1 := ⟨j - 1, by omega⟩
  unfold Chan.read_string_until
  rw [hrx]
  unfold readStringUntilRaw
  have htake : (d0 :: d').take (j' + 1) = d0 :: d'.take j' := List.take_succ_cons
  have hm0 : d0 ∉ u := by
    intro hm
    exact hmem d0 hm (by rw [List.getD_cons_zero])
  rw [htake, List.append_assoc]
  rw [rsuAux_buffer_phase d0 d' maxLen u [] _ hm0 (by simp; omega)]
  simp only [List.nil_append, List.cons_append]
  rw [rsuAux_match_more (d0 :: d') maxLen d0 _ u 0 false hlen (by rw [List.getD_cons_zero])
    (by omega)]
  have hdm := rsuAux_delim_mismatch (d0 :: d') maxLen j' 1 (j' + 1) u rest b
    (by omega) (by omega) (by omega) hj hb hlen
  have hdrop : ((d0 :: d').drop 1).take (j' + 1 - 1) = d'.take j' := by simp
  rw [hdrop] at hdm
  rw [hdm]

theorem c8_invalid_delimiter_char_witness :
    Chan.read_string_until ⟨[97, 13, 88, 99], [], [], none, none⟩ 8 [13, 10] =
      (.error .InvalidDelimiterChar, ⟨[99], [], [], none, none⟩) := by
  have h := c8_invalid_delimiter_char ⟨[97, 13, 88, 99], [], [], none, none⟩
    [97] [99] [13, 10] 1 88 8 (by decide) (by decide) (by decide) (by decide) (by decide)
    (by decide)
  simpa using h

/-- Claim C9, counterexample to the claim as stated: a StringChannel holding
"ab" with cursor 0 has two unread bytes, yet recv with max_len 3 returns
Err(EndOfStream) rather than the bytes it could read. -/
theorem c9_recv_counterexample :
    (StringChannel.recv ⟨0, [97, 98]⟩ 3).1 = .error .EndOfStream ∧ (0 : Nat) < 2 := by decide

/-- Claim C9 (amended): StringChannel::recv returns Err(EndOfStream) iff fewer
than max_len bytes remain unread at the time of the call (so with the
one-byte reads used by every read primitive, exactly when the data is fully
consumed); when at least max_len bytes remain it returns exactly the next
max_len bytes. -/
theorem c9_recv_spec (pos : Nat) (data : List Nat) (maxLen : Nat) :
    ((StringChannel.recv ⟨pos, data⟩ maxLen).1 = .error .EndOfStream ↔
      data.length - pos < maxLen) ∧
    (maxLen + pos ≤ data.length →
      (StringChannel.recv ⟨pos, data⟩ maxLen).1 = .ok ((data.drop pos).take maxLen)) := by
  constructor
  · exact scRecvGo_eos_iff maxLen pos data []
  · intro hle
    have h := scRecvGo_ok maxLen pos data [] hle
    simpa using h

theorem c9_recv_spec_witness :
    ((StringChannel.recv ⟨1, [97, 98, 99]⟩ 2).1 = .error .EndOfStream ↔ (2 : Nat) < 2) ∧
    (StringChannel.recv ⟨1, [97, 98, 99]⟩ 2).1 = .ok [98, 99] := by
  constructor
  · exact (c9_recv_spec 1 [97, 98, 99] 2).1
  · have h := (c9_recv_spec 1 [97, 98, 99] 2).2 (by decide)
    simpa using h

/-! ## URL parser lemmas -/

theorem uac_spec (c : Nat) : ∀ (a b : List Nat), c ∉ a →
    until_and_consume (a ++ c :: b) c = .ok (b, a) := by
  intro a
  induction a with
  | nil => intro b _; rw [List.nil_append, until_and_consume, if_pos rfl]
  | cons x a' ih =>
    intro b hmem
    have hx : ¬ x = c := fun hEq => hmem (hEq ▸ List.mem_cons_self x a')
    rw [List.cons_append, until_and_consume, if_neg hx,
      ih b (fun hm => hmem (List.mem_cons_of_mem x hm))]

theorem until_spec (c : Nat) : ∀ (a b : List Nat), c ∉ a →
    until_ (a ++ c :: b) c = .ok (c :: b, a) := by
  intro a
  induction a with
  | nil => intro b _; rw [List.nil_append, until_, if_pos rfl]
  | cons x a' ih =>
    intro b hmem
    have hx : ¬ x = c := fun hEq => hmem (hEq ▸ List.mem_cons_self x a')
    rw [List.cons_append, until_, if_neg hx,
      ih b (fun hm => hmem (List.mem_cons_of_mem x hm))]

theorem fpo_none (c : Nat) : ∀ (l : List Nat), c ∉ l → first_pos_of l c = none := by
  intro l
  induction l with
  | nil => intro _; rfl
  | cons x l' ih =>
    intro hmem
    have hx : ¬ x = c := fun hEq => hmem (hEq ▸ List.mem_cons_self x l')
    rw [first_pos_of, if_neg hx, ih (fun hm => hmem (List.mem_cons_of_mem x hm))]
    rfl

theorem fpo_cons_self (c : Nat) (l : List Nat) : first_pos_of (c :: l) c = some 0 := by
  rw [first_pos_of, if_pos rfl]

theorem fpo_append (c : Nat) : ∀ (a b : List Nat), c ∉ a →
    first_pos_of (a ++ b) c = (first_pos_of b c).map (· + a.length) := by
  intro a
  induction a with
  | nil =>
    intro b _
    rw [List.nil_append]
    cases hf : first_pos_of b c <;> simp [hf]
  | cons x a' ih =>
    intro b hmem
    have hx : ¬ x = c := fun hEq => hmem (hEq ▸ List.mem_cons_self x a')
    rw [List.cons_append, first_pos_of, if_neg hx,
      ih b (fun hm => hmem (List.mem_cons_of_mem x hm))]
    cases hf : first_pos_of b c <;> simp [hf] <;> omega

theorem toStr_ascii (s : List Nat) (h : ∀ b ∈ s, b < 128) : toStr s = .ok s := by
  simp [toStr, utf8Valid_of_ascii s h]

theorem parseU16core_digits (p : List Nat) (hne : p ≠ []) (hdig : ∀ b ∈ p, 48 ≤ b ∧ b ≤ 57)
    (hval : decimalValue p ≤ 65535) : parseU16core p = some (decimalValue p) := by
  unfold parseU16core
  rw [if_neg hne, if_pos ?hall, if_pos hval]
  case hall =>
    rw [List.all_eq_true]
    intro x hx
    have := hdig x hx
    simp only [Bool.and_eq_true, decide_eq_true_eq]
    omega

theorem parseU16_digits (p : List Nat) (hne : p ≠ []) (hdig : ∀ b ∈ p, 48 ≤ b ∧ b ≤ 57)
    (hval : decimalValue p ≤ 65535) : parseU16 p = some (decimalValue p) := by
  unfold parseU16
  have h43 : ¬ p.headD 0 = 43 := by
    cases p with
    | nil => simp at hne
    | cons x t =>
      have := hdig x (by simp)
      simp only [List.headD_cons]
      omega
  rw [if_neg h43]
  exact parseU16core_digits p hne hdig hval

/-! ## Claim C4: the header vocabulary round trip -/

/-- Claim C4: the code contradicts the claimed round trip at LastModified:
as_string emits "LastModified: " (no hyphen), whose name token maps back to
Other "LastModified:", not LastModified; the other seven well-known variants
do round-trip. -/
theorem c4_lastmodified_roundtrip_fails :
    HttpHeader.fromString ((HttpHeader.as_string HttpHeader.LastModified).dropLast) =
      HttpHeader.Other (ascii "LastModified:") ∧
    HttpHeader.fromString ((HttpHeader.as_string HttpHeader.LastModified).dropLast) ≠
      HttpHeader.LastModified ∧
    (∀ hd ∈ [HttpHeader.Connection, HttpHeader.ContentLength, HttpHeader.ContentType,
        HttpHeader.Date, HttpHeader.Etag, HttpHeader.Host, HttpHeader.Server],
      HttpHeader.fromString ((HttpHeader.as_string hd).dropLast) = hd) := by decide

theorem uac_scheme (s core : List Nat) (hs58 : 58 ∉ s) :
    until_and_consume (s ++ [58, 47, 47] ++ core) 58 = .ok ([47, 47] ++ core, s) := by
  have hform : s ++ [58, 47, 47] ++ core = s ++ 58 :: ([47, 47] ++ core) := by simp
  rw [hform, uac_spec 58 s _ hs58]

theorem uac_slash1 (core : List Nat) :
    until_and_consume ([47, 47] ++ core) 47 = .ok ([47] ++ core, []) := by
  have hform : ([47, 47] ++ core : List Nat) = [] ++ 47 :: ([47] ++ core) := by simp
  rw [hform, uac_spec 47 [] _ (by simp)]

theorem uac_slash2 (core : List Nat) :
    until_and_consume ([47] ++ core) 47 = .ok (core, []) := by
  have hform : ([47] ++ core : List Nat) = [] ++ 47 :: core := by simp
  rw [hform, uac_spec 47 [] _ (by simp)]

/-- Claim C2, counterexample to the claim as stated: for the well-formed URL
http://h#f (fragment present, no path), the parser returns the fragment as
part of the host. -/
theorem c2_parse_url_counterexample :
    parse_url (ascii "http://h#f") = .ok (ascii "http", ascii "h#f", 80, ascii "/") ∧
    (35 : Nat) ∈ (ascii "h#f") := by decide

/-- Claim C2 (amended: a fragment, when present, must follow an explicit
path — with no path the '#' is not stripped).  For every well-formed URL
scheme://host[:port][/path][#frag] (host non-empty, containing none of
':', '/', '#'; port a non-empty decimal string of u16 range when present;
path starting with '/' and free of '#'; all components ASCII), parse_url
returns exactly the host, the explicit port or else the scheme default
(80 http / 443 https / 0 otherwise), the exact path or "/", and the
fragment is never part of the result. -/
theorem c2_parse_url_wellformed (s h : List Nat) (port path frag : Option (List Nat))
    (hs58 : 58 ∉ s) (hsA : ∀ b ∈ s, b < 128)
    (hhne : h ≠ []) (hh58 : 58 ∉ h) (hh47 : 47 ∉ h) (hh35 : 35 ∉ h)
    (hhA : ∀ b ∈ h, b < 128)
    (hport : ∀ p ∈ port, p ≠ [] ∧ (∀ b ∈ p, 48 ≤ b ∧ b ≤ 57) ∧ decimalValue p ≤ 65535)
    (hpath : ∀ pl ∈ path, (∃ t, pl = 47 :: t) ∧ 35 ∉ pl ∧ (∀ b ∈ pl, b < 128))
    (hfrag : frag.isSome → path.isSome) :
    parse_url (mkUrl s h port path frag) =
      .ok (s, h, expectedPort s port, path.getD (ascii "/")) := by
  have e2 : toStr s = .ok s := toStr_ascii s hsA
  have e7 : toStr h = .ok h := toStr_ascii h hhA
  rcases port with _ | p <;> rcases path with _ | pl <;> rcases frag with _ | fr
  · -- no port, no path, no fragment: the remainder is exactly the host
    have hurl : mkUrl s h none none none = s ++ [58, 47, 47] ++ h := by simp [mkUrl]
    rw [hurl]
    have e5 : first_pos_of h 58 = none := fpo_none 58 h hh58
    have e6 : first_pos_of h 47 = none := fpo_none 47 h hh47
    simp only [parse_url, uac_scheme s h hs58, uac_slash1, uac_slash2, e2, e5, e6, e7,
      expectedPort, Option.getD]
  · -- fragment without a path: excluded by the amendment
    simp at hfrag
  · -- path, no port, no fragment
    obtain ⟨⟨t, rfl⟩, hpl35, hplA⟩ := hpath pl rfl
    have hurl : mkUrl s h none (some (47 :: t)) none =
        s ++ [58, 47, 47] ++ (h ++ 47 :: t) := by simp [mkUrl]
    rw [hurl]
    have e6 : first_pos_of (h ++ 47 :: t) 47 = some h.length := by
      rw [fpo_append 47 h _ hh47, fpo_cons_self]
      simp
    have e8 : until_ (h ++ 47 :: t) 47 = .ok (47 :: t, h) := until_spec 47 h t hh47
    have e9 : first_pos_of (47 :: t) 35 = none := fpo_none 35 _ hpl35
    have e10 : toStr (47 :: t) = .ok (47 :: t) := toStr_ascii _ hplA
    cases hft : first_pos_of t 58 with
    | none =>
      have e5 : first_pos_of (h ++ 47 :: t) 58 = none := by
        rw [fpo_append 58 h _ hh58, first_pos_of, if_neg (by omega), hft]
        rfl
      simp only [parse_url, uac_scheme s _ hs58, uac_slash1, uac_slash2, e2, e5, e6, e7,
        e8, e9, e10, pathOf, expectedPort, Option.getD]
    | some j =>
      have e5 : first_pos_of (h ++ 47 :: t) 58 = some (j + 1 + h.length) := by
        rw [fpo_append 58 h _ hh58, first_pos_of, if_neg (by omega), hft]
        rfl
      simp only [parse_url, uac_scheme s _ hs58, uac_slash1, uac_slash2, e2, e5, e6, e7,
        e8, e9, e10, pathOf]
      rw [if_neg (by omega : ¬ (j + 1 + h.length < h.length))]
      simp only [e8, e7, e9, e10, pathOf, expectedPort, Option.getD]
  · -- path and fragment, no port
    obtain ⟨⟨t, rfl⟩, hpl35, hplA⟩ := hpath _ rfl
    have hurl : mkUrl s h none (some (47 :: t)) (some fr) =
        s ++ [58, 47, 47] ++ (h ++ 47 :: (t ++ 35 :: fr)) := by simp [mkUrl]
    rw [hurl]
    have e6 : first_pos_of (h ++ 47 :: (t ++ 35 :: fr)) 47 = some h.length := by
      rw [fpo_append 47 h _ hh47, fpo_cons_self]
      simp
    have e8 : until_ (h ++ 47 :: (t ++ 35 :: fr)) 47 = .ok (47 :: (t ++ 35 :: fr), h) :=
      until_spec 47 h _ hh47
    have hsplit : (47 :: (t ++ 35 :: fr) : List Nat) = (47 :: t) ++ 35 :: fr := by simp
    have e9 : first_pos_of (47 :: (t ++ 35 :: fr)) 35 = some (t.length + 1) := by
      rw [hsplit, fpo_append 35 _ _ hpl35, fpo_cons_self]
      simp
    have e10 : until_and_consume (47 :: (t ++ 35 :: fr)) 35 = .ok (fr, 47 :: t) := by
      rw [hsplit, uac_spec 35 _ fr hpl35]
    have e11 : toStr (47 :: t) = .ok (47 :: t) := toStr_ascii _ hplA
    cases hft : first_pos_of (t ++ 35 :: fr) 58 with
    | none =>
      have e5 : first_pos_of (h ++ 47 :: (t ++ 35 :: fr)) 58 = none := by
        rw [fpo_append 58 h _ hh58, first_pos_of, if_neg (by omega), hft]
        rfl
      simp only [parse_url, uac_scheme s _ hs58, uac_slash1, uac_slash2, e2, e5, e6, e7,
        e8, e9, e10, e11, pathOf, expectedPort, Option.getD]
    | some j =>
      have e5 : first_pos_of (h ++ 47 :: (t ++ 35 :: fr)) 58 = some (j + 1 + h.length) := by
        rw [fpo_append 58 h _ hh58, first_pos_of, if_neg (by omega), hft]
        rfl
      simp only [parse_url, uac_scheme s _ hs58, uac_slash1, uac_slash2, e2, e5, e6, e7, e8]
      rw [if_neg (by omega : ¬ (j + 1 + h.length < h.length))]
      simp only [e8, e7, e9, e10, e11, pathOf, expectedPort, Option.getD]
  · -- port, no path, no fragment
    obtain ⟨hpne, hpd, hple⟩ := hport p rfl
    have hp47 : (47 : Nat) ∉ p := fun hm => by have := hpd 47 hm; omega
    have hpA : ∀ b ∈ p, b < 128 := fun b hm => by have := hpd b hm; omega
    have hurl : mkUrl s h (some p) none none =
        s ++ [58, 47, 47] ++ (h ++ 58 :: p) := by simp [mkUrl]
    rw [hurl]
    have e5 : first_pos_of (h ++ 58 :: p) 58 = some h.length := by
      rw [fpo_append 58 h _ hh58, fpo_cons_self]
      simp
    have e6 : first_pos_of (h ++ 58 :: p) 47 = none := by
      refine fpo_none 47 _ (fun hm => ?_)
      rcases List.mem_append.1 hm with h1 | h2
      · exact hh47 h1
      · rcases List.mem_cons.1 h2 with h3 | h4
        · omega
        · have := hpd 47 h4
          omega
    have e8 : until_and_consume (h ++ 58 :: p) 58 = .ok (p, h) := uac_spec 58 h p hh58
    have e9 : toStr p = .ok p := toStr_ascii p hpA
    have e10 : parseU16 p = some (decimalValue p) := parseU16_digits p hpne hpd hple
    simp only [parse_url, uac_scheme s _ hs58, uac_slash1, uac_slash2, e2, e5, e6, e7,
      e8, e9, e10, expectedPort, Option.getD]
  · -- port and fragment, no path: excluded by the amendment
    simp at hfrag
  · -- port and path, no fragment
    obtain ⟨hpne, hpd, hple⟩ := hport p rfl
    obtain ⟨⟨t, rfl⟩, hpl35, hplA⟩ := hpath _ rfl
    have hp47 : (47 : Nat) ∉ p := fun hm => by have := hpd 47 hm; omega
    have hpA : ∀ b ∈ p, b < 128 := fun b hm => by have := hpd b hm; omega
    have hurl : mkUrl s h (some p) (some (47 :: t)) none =
        s ++ [58, 47, 47] ++ (h ++ 58 :: (p ++ 47 :: t)) := by simp [mkUrl]
    rw [hurl]
    have e5 : first_pos_of (h ++ 58 :: (p ++ 47 :: t)) 58 = some h.length := by
      rw [fpo_append 58 h _ hh58, fpo_cons_self]
      simp
    have e6 : first_pos_of (h ++ 58 :: (p ++ 47 :: t)) 47 = some (p.length + 1 + h.length) := by
      rw [fpo_append 47 h _ hh47, first_pos_of, if_neg (by omega),
        fpo_append 47 p _ hp47, fpo_cons_self]
      simp
      try omega
    have e8 : until_and_consume (h ++ 58 :: (p ++ 47 :: t)) 58 = .ok (p ++ 47 :: t, h) :=
      uac_spec 58 h _ hh58
    have e9 : until_ (p ++ 47 :: t) 47 = .ok (47 :: t, p) := until_spec 47 p t hp47
    have e10 : toStr p = .ok p := toStr_ascii p hpA
    have e11 : parseU16 p = some (decimalValue p) := parseU16_digits p hpne hpd hple
    have e12 : first_pos_of (47 :: t) 35 = none := fpo_none 35 _ hpl35
    have e13 : toStr (47 :: t) = .ok (47 :: t) := toStr_ascii _ hplA
    simp only [parse_url, uac_scheme s _ hs58, uac_slash1, uac_slash2, e2, e5, e6, e7]
    rw [if_pos (by omega : h.length < p.length + 1 + h.length)]
    simp only [e7, e8, e9, e10, e11, e12, e13, pathOf, expectedPort, Option.getD]
  · -- port, path and fragment
    obtain ⟨hpne, hpd, hple⟩ := hport p rfl
    obtain ⟨⟨t, rfl⟩, hpl35, hplA⟩ := hpath _ rfl
    have hp47 : (47 : Nat) ∉ p := fun hm => by have := hpd 47 hm; omega
    have hpA : ∀ b ∈ p, b < 128 := fun b hm => by have := hpd b hm; omega
    have hurl : mkUrl s h (some p) (some (47 :: t)) (some fr) =
        s ++ [58, 47, 47] ++ (h ++ 58 :: (p ++ 47 :: (t ++ 35 :: fr))) := by simp [mkUrl]
    rw [hurl]
    have e5 : first_pos_of (h ++ 58 :: (p ++ 47 :: (t ++ 35 :: fr))) 58 = some h.length := by
      rw [fpo_append 58 h _ hh58, fpo_cons_self]
      simp
    have e6 : first_pos_of (h ++ 58 :: (p ++ 47 :: (t ++ 35 :: fr))) 47 =
        some (p.length + 1 + h.length) := by
      rw [fpo_append 47 h _ hh47, first_pos_of, if_neg (by omega),
        fpo_append 47 p _ hp47, fpo_cons_self]
      simp
      try omega
    have e8 : until_and_consume (h ++ 58 :: (p ++ 47 :: (t ++ 35 :: fr))) 58 =
        .ok (p ++ 47 :: (t ++ 35 :: fr), h) := uac_spec 58 h _ hh58
    have e9 : until_ (p ++ 47 :: (t ++ 35 :: fr)) 47 = .ok (47 :: (t ++ 35 :: fr), p) :=
      until_spec 47 p _ hp47
    have e10 : toStr p = .ok p := toStr_ascii p hpA
    have e11 : parseU16 p = some (decimalValue p) := parseU16_digits p hpne hpd hple
    have hsplit : (47 :: (t ++ 35 :: fr) : List Nat) = (47 :: t) ++ 35 :: fr := by simp
    have e12 : first_pos_of (47 :: (t ++ 35 :: fr)) 35 = some (t.length + 1) := by
      rw [hsplit, fpo_append 35 _ _ hpl35, fpo_cons_self]
      simp
    have e13 : until_and_consume (47 :: (t ++ 35 :: fr)) 35 = .ok (fr, 47 :: t) := by
      rw [hsplit, uac_spec 35 _ fr hpl35]
    have e14 : toStr (47 :: t) = .ok (47 :: t) := toStr_ascii _ hplA
    simp only [parse_url, uac_scheme s _ hs58, uac_slash1, uac_slash2, e2, e5, e6, e7]
    rw [if_pos (by omega : h.length < p.length + 1 + h.length)]
    simp only [e7, e8, e9, e10, e11, e12, e13, e14, pathOf, expectedPort, Option.getD]

theorem c2_parse_url_wellformed_witness :
    parse_url (ascii "https://ex.org:8443/a/b#frag") =
      .ok (ascii "https", ascii "ex.org", 8443, ascii "/a/b") := by
  have h := c2_parse_url_wellformed (ascii "https") (ascii "ex.org") (some (ascii "8443"))
    (some (ascii "/a/b")) (some (ascii "frag"))
    (by decide) (by decide) (by decide) (by decide) (by decide) (by decide) (by decide)
    (fun p hp => by cases hp; exact ⟨by decide, by decide, by decide⟩)
    (fun pl hpl => by cases hpl; exact ⟨⟨ascii "a/b", by decide⟩, by decide, by decide⟩)
    (fun _ => rfl)
  have hm : mkUrl (ascii "https") (ascii "ex.org") (some (ascii "8443"))
      (some (ascii "/a/b")) (some (ascii "frag")) = ascii "https://ex.org:8443/a/b#frag" := by
    decide
  have hp : expectedPort (ascii "https") (some (ascii "8443")) = 8443 := by decide
  have hg : (some (ascii "/a/b")).getD (ascii "/") = ascii "/a/b" := by decide
  rw [hm, hp, hg] at h
  exact h

/-! ## Client state machine lemmas -/

theorem clientOpen_err_state (c : Client) (e : HttpError) (c' : Client)
    (h : clientOpen c = .err e c') : c'.state = ClientState.Error := by
  unfold clientOpen at h
  repeat' split at h
  all_goals cases h
  all_goals rfl

theorem clientOpen_ok_state (c : Client) (c' : Client)
    (h : clientOpen c = .ok c') : c'.state = ClientState.HeadersOrBody := by
  unfold clientOpen at h
  repeat' split at h
  all_goals cases h
  all_goals rfl

theorem clientHeaders_err_state (c : Client) (hs : List (HttpHeader × List Nat))
    (e : HttpError) (c' : Client)
    (h : clientHeaders c hs = .err e c') : c'.state = ClientState.Error := by
  unfold clientHeaders at h
  repeat' split at h
  all_goals cases h
  all_goals rfl

theorem clientHeaders_ok_state (c : Client) (hs : List (HttpHeader × List Nat)) (c' : Client)
    (h : clientHeaders c hs = .ok c') : c'.state = ClientState.HeadersOrBody := by
  unfold clientHeaders at h
  repeat' split at h
  all_goals cases h
  all_goals rfl

theorem clientSendAux_err_state (c : Client) (b : List Nat) (fs : ClientState)
    (e : HttpError) (c' : Client)
    (h : clientSendAux c b fs = .err e c') : c'.state = ClientState.Error := by
  unfold clientSendAux at h
  split at h
  · cases h
  · split at h
    · cases h
    · rename_i heq
      cases h
      split at heq
      · split at heq
        · cases heq
          rfl
        · cases heq
      · cases heq
    · rename_i c1 heq
      have hc1 : c1.state = ClientState.Error := by
        split at heq
        · split at heq
          · cases heq
          · cases heq
            rfl
        · cases heq
          rfl
      split at h
      · split at h
        · cases h
          exact hc1
        · cases h
      · cases h

theorem clientSendAux_ok_state (c : Client) (b : List Nat) (fs : ClientState) (c' : Client)
    (h : clientSendAux c b fs = .ok c') : c'.state = fs := by
  unfold clientSendAux at h
  repeat' split at h
  all_goals cases h
  all_goals rfl

theorem responseCore_err_state (f : HttpHeader → Bool) (c : Client) (e : HttpError) (c' : Client)
    (h : responseCore f c = .err e c') : c'.state = c.state := by
  unfold responseCore at h
  repeat' split at h
  all_goals cases h
  all_goals rfl

theorem clientResponse_err_state (f : HttpHeader → Bool) (c : Client) (e : HttpError) (c' : Client)
    (h : clientResponse f c = .err e c') : c'.state = ClientState.Error := by
  unfold clientResponse at h
  split at h
  · cases h
  · rename_i heq
    cases h
    split at heq
    · exact clientSendAux_err_state _ _ _ _ _ heq
    · cases heq
  · rename_i c0 heq
    split at h
    · cases h
    · have := responseCore_err_state _ _ _ _ h
      rw [this]

theorem clientResponse_ok_state (f : HttpHeader → Bool) (c : Client) (v : RespData) (c' : Client)
    (h : clientResponse f c = .ok (v, c')) : c'.state = ClientState.Done := by
  unfold clientResponse at h
  split at h
  · cases h
  · cases h
  · split at h
    · cases h
    · unfold responseCore at h
      repeat' split at h
      all_goals cases h
      all_goals rfl

/-- Claim C3: fail-stop invariant of the client state machine.  In the Error
state every protocol operation fails its state assertion; whenever an
operation returns an error the client it leaves behind is in the Error state;
and a successful operation never leaves the client in the Error state (the
state moved to Error on entry is restored only on success). -/
theorem c3_failstop (op : ProtoOp) (c : Client) :
    (c.state = ClientState.Error → runOp op c = .assertFail) ∧
    (∀ e c', runOp op c = .err e c' → c'.state = ClientState.Error) ∧
    (∀ c', runOp op c = .ok c' → c'.state ≠ ClientState.Error) := by
  refine ⟨?_, ?_, ?_⟩
  · intro hstate
    cases op
    all_goals
      simp [runOp, clientOpen, clientHeaders, clientHeader, clientBody, clientSend,
        clientSendAux, clientResponse, hstate]
  · intro e c' h
    cases op with
    | opOpen => exact clientOpen_err_state c e c' h
    | opHeaders hs => exact clientHeaders_err_state c hs e c' h
    | opHeader n v => exact clientHeaders_err_state c [(n, v)] e c' h
    | opBody b => exact clientSendAux_err_state c b ClientState.HeadersOrBody e c' h
    | opSend b => exact clientSendAux_err_state c b ClientState.ReadResponse e c' h
    | opResponse f =>
      cases hcr : clientResponse f c with
      | assertFail =>
        simp only [runOp, hcr] at h
        cases h
      | err e1 c1 =>
        simp only [runOp, hcr] at h
        cases h
        exact clientResponse_err_state f c e c' hcr
      | ok v =>
        obtain ⟨rd, c1⟩ := v
        simp only [runOp, hcr] at h
        cases h
  · intro c' h
    cases op with
    | opOpen => rw [clientOpen_ok_state c c' h]; simp
    | opHeaders hs => rw [clientHeaders_ok_state c hs c' h]; simp
    | opHeader n v => rw [clientHeaders_ok_state c [(n, v)] c' h]; simp
    | opBody b => rw [clientSendAux_ok_state c b ClientState.HeadersOrBody c' h]; simp
    | opSend b => rw [clientSendAux_ok_state c b ClientState.ReadResponse c' h]; simp
    | opResponse f =>
      cases hcr : clientResponse f c with
      | assertFail =>
        simp only [runOp, hcr] at h
        cases h
      | err e1 c1 =>
        simp only [runOp, hcr] at h
        cases h
      | ok v =>
        obtain ⟨rd, c1⟩ := v
        simp only [runOp, hcr] at h
        cases h
        rw [clientResponse_ok_state f c rd c' hcr]
        simp

theorem c3_failstop_witness :
    runOp ProtoOp.opOpen
        ⟨⟨[], [], [], none, none⟩, ClientState.Error, HttpMethod.Get, [], false⟩ =
      .assertFail ∧
    (⟨⟨[], [], [], none, none⟩, ClientState.Error, HttpMethod.Get, [], false⟩ : Client).state =
      ClientState.Error := by
  refine ⟨(c3_failstop ProtoOp.opOpen _).1 rfl, ?_⟩
  exact (c3_failstop ProtoOp.opOpen
    ⟨⟨[], [], [], none, none⟩, ClientState.Created, HttpMethod.Get, [], false⟩).2.1
    (.BadUrl .DelimiterNotFound) _ (by decide)

/-- Claim C5: open(), called in the Created state on a parseable URL, fails
with UnsupportedScheme when the scheme is neither http nor https; otherwise
(on a cooperative channel) it opens the channel with TLS iff the scheme is
https and writes exactly the request line METHOD SP path SP HTTP/1.1 CRLF
followed immediately by the mandatory Host header, transitioning to
HeadersOrBody. -/
theorem c5_open_spec (c : Client) (scheme host path : List Nat) (port : Nat)
    (hstate : c.state = ClientState.Created)
    (hparse : parse_url c.url = .ok (scheme, host, port, path)) :
    (scheme ≠ ascii "http" ∧ scheme ≠ ascii "https" →
      clientOpen c = .err .UnsupportedScheme { c with state := ClientState.Error }) ∧
    (c.channel.openErr = none → c.channel.sendErrs = [] →
     (scheme = ascii "http" ∨ scheme = ascii "https") →
      clientOpen c = .ok { c with
        state := ClientState.HeadersOrBody,
        channel := { c.channel with
          openedWith := some (host, port, decide (scheme = ascii "https")),
          sent := c.channel.sent ++
            (c.method.as_str ++ ascii " " ++ path ++ HTTP_VERSION ++
             ascii "Host: " ++ host ++ LINE_END) } }) := by
  constructor
  · intro hsch
    unfold clientOpen
    rw [if_neg (by simp [hstate])]
    simp only [hparse]
    rw [if_pos hsch]
  · intro hopen hsend hsch
    unfold clientOpen
    rw [if_neg (by simp [hstate])]
    simp only [hparse]
    rw [if_neg (by rcases hsch with h1 | h1 <;> simp [h1])]
    simp only [chanOpen, hopen, sendList, chanSend, hsend, HttpHeader.as_string]
    simp [List.append_assoc]

theorem c5_open_spec_witness :
    clientOpen ⟨⟨[], [], [], none, none⟩, ClientState.Created, HttpMethod.Get,
        ascii "http://h/p", false⟩ =
      .ok ⟨⟨[], ascii "GET /p HTTP/1.1\r\nHost: h\r\n", [], none,
        some (ascii "h", 80, false)⟩,
        ClientState.HeadersOrBody, HttpMethod.Get, ascii "http://h/p", false⟩ := by
  have h := (c5_open_spec
    ⟨⟨[], [], [], none, none⟩, ClientState.Created, HttpMethod.Get, ascii "http://h/p", false⟩
    (ascii "http") (ascii "h") (ascii "/p") 80 rfl (by decide)).2 rfl rfl (Or.inl rfl)
  exact h.trans (by decide)

/-! ## Response header-loop lemmas -/

/-- The blank CRLF line ends the header loop. -/
theorem headerLoop_blank (f : HttpHeader → Bool) (body : List Nat)
    (acc : List (HttpHeader × List Nat)) :
    headerLoop f (13 :: 10 :: body) acc = .ok acc body := by
  have hspec : readStringUntilRaw (13 :: 10 :: body) 256 [13, 10] = (.ok [], body) := by
    have hform : (13 :: 10 :: body : List Nat) = [] ++ (13 :: [10]) ++ body := by simp
    rw [hform]
    exact readStringUntilRaw_spec 13 [10] [] body 256 (by simp) (by simp) rfl
  rw [headerLoop, hspec]
  simp

/-- One well-formed header line advances the loop, storing the (converted
name, value) pair exactly when the filter accepts the name. -/
theorem headerLoop_cons (f : HttpHeader → Bool) (n v rest : List Nat)
    (acc : List (HttpHeader × List Nat))
    (hn13 : 13 ∉ n) (hn32 : 32 ∉ n) (hv13 : 13 ∉ v)
    (hnA : ∀ b ∈ n, b < 128) (hvA : ∀ b ∈ v, b < 128)
    (hlen : n.length + 1 + v.length < 256) :
    headerLoop f (n ++ 32 :: (v ++ 13 :: 10 :: rest)) acc =
      headerLoop f rest
        (if f (HttpHeader.fromString n) then acc ++ [(HttpHeader.fromString n, v)] else acc) := by
  have hline : readStringUntilRaw (n ++ 32 :: (v ++ 13 :: 10 :: rest)) 256 [13, 10] =
      (.ok (n ++ 32 :: v), rest) := by
    have hform : n ++ 32 :: (v ++ 13 :: 10 :: rest) = (n ++ 32 :: v) ++ (13 :: [10]) ++ rest := by
      simp
    rw [hform]
    refine readStringUntilRaw_spec 13 [10] _ rest 256 ?_ ?_ ?_
    · intro hm
      rcases List.mem_append.1 hm with h1 | h2
      · exact hn13 h1
      · rcases List.mem_cons.1 h2 with h3 | h4
        · omega
        · exact hv13 h4
    · simp
      omega
    · refine utf8Valid_of_ascii _ (fun b hb => ?_)
      rcases List.mem_append.1 hb with h1 | h2
      · exact hnA b h1
      · rcases List.mem_cons.1 h2 with h3 | h4
        · omega
        · exact hvA b h4
  have hname : readStringUntilRaw (n ++ 32 :: v) 256 [32] = (.ok n, v) := by
    have hform : n ++ 32 :: v = n ++ (32 :: []) ++ v := by simp
    rw [hform]
    exact readStringUntilRaw_spec 32 [] n v 256 hn32 (by omega) (utf8Valid_of_ascii n hnA)
  have hval : (readToEnd v 256).1 = v := by
    rw [readToEnd_eq]
    exact List.take_of_length_le (by omega)
  rw [headerLoop, hline]
  have hne : n ++ 32 :: v ≠ [] := by simp
  simp only [hne, if_false, hname, hval, utf8Valid_of_ascii v hvA]
  cases hf : f (HttpHeader.fromString n) <;> simp [hf]

/-- The header loop over a well-formed header block followed by the blank line:
exactly the filter-accepted (header, value) pairs are appended, in wire order,
and the loop stops at the start of the body. -/
theorem headerLoop_block (f : HttpHeader → Bool) :
    ∀ (hdrs : List (List Nat × List Nat)) (acc : List (HttpHeader × List Nat)) (body : List Nat),
    (∀ p ∈ hdrs, wfHeader p) →
    headerLoop f (encodeHeaders hdrs ++ 13 :: 10 :: body) acc =
      .ok (acc ++ storedOf f hdrs) body := by
  intro hdrs
  induction hdrs with
  | nil =>
    intro acc body _
    simp only [encodeHeaders, List.nil_append]
    rw [headerLoop_blank]
    simp [storedOf]
  | cons p rest' ih =>
    obtain ⟨n, v⟩ := p
    intro acc body hwf
    obtain ⟨hn13, hn32, hv13, hnA, hvA, hlen⟩ := hwf (n, v) (by simp)
    have hform : encodeHeaders ((n, v) :: rest') ++ 13 :: 10 :: body =
        n ++ 32 :: (v ++ 13 :: 10 :: (encodeHeaders rest' ++ 13 :: 10 :: body)) := by
      simp [encodeHeaders]
    rw [hform, headerLoop_cons f n v _ acc hn13 hn32 hv13 hnA hvA hlen,
      ih _ body (fun q hq => hwf q (by simp [hq]))]
    cases hf : f (HttpHeader.fromString n) <;>
      simp [hf, storedOf, List.filter_cons, List.append_assoc]

/-- The header loop hits a line of 256 or more bytes before its CRLF: the
fixed 256-byte scratch buffer overflows. -/
theorem headerLoop_badtail (f : HttpHeader → Bool) :
    ∀ (hdrs : List (List Nat × List Nat)) (acc : List (HttpHeader × List Nat)) (tail : List Nat),
    (∀ p ∈ hdrs, wfHeader p) →
    (∀ b ∈ tail.take 256, b ≠ 13) → 256 ≤ tail.length →
    headerLoop f (encodeHeaders hdrs ++ tail) acc = .err .BufferFull (tail.drop 256) := by
  intro hdrs
  induction hdrs with
  | nil =>
    intro acc tail _ hmem hlen
    simp only [encodeHeaders, List.nil_append]
    rw [headerLoop, readStringUntilRaw_bufferFull 13 [10] tail 256 hmem hlen]
  | cons p rest' ih =>
    obtain ⟨n, v⟩ := p
    intro acc tail hwf hmem hlen
    obtain ⟨hn13, hn32, hv13, hnA, hvA, hlw⟩ := hwf (n, v) (by simp)
    have hform : encodeHeaders ((n, v) :: rest') ++ tail =
        n ++ 32 :: (v ++ 13 :: 10 :: (encodeHeaders rest' ++ tail)) := by
      simp [encodeHeaders]
    rw [hform, headerLoop_cons f n v _ acc hn13 hn32 hv13 hnA hvA hlw,
      ih _ tail (fun q hq => hwf q (by simp [hq])) hmem hlen]

/-- responseCore on a well-formed status line: the line is consumed and
re-parsed (version accepted, code parsed, reason kept as the status), and the
outcome is that of the header loop on the rest of the channel. -/
theorem responseCore_status (f : HttpHeader → Bool) (c : Client)
    (ver code reason rxH : List Nat) (k : Nat)
    (hrx : c.channel.rx = (ver ++ 32 :: (code ++ 32 :: reason)) ++ 13 :: 10 :: rxH)
    (hver : ver = ascii "HTTP/1.1" ∨ ver = ascii "HTTP/1.0")
    (hcode : parseU16 code = some k)
    (hcd : ∀ b ∈ code, 48 ≤ b ∧ b ≤ 57)
    (hr13 : 13 ∉ reason) (hrA : ∀ b ∈ reason, b < 128)
    (hlen : ver.length + 1 + code.length + 1 + reason.length < 256) :
    responseCore f c =
      (match headerLoop f rxH [] with
       | .assertFail => .assertFail
       | .err e rem => .err (.ChannelError e) (setRx c rem)
       | .ok hs rem => .ok (⟨k, reason, hs⟩, { setRx c rem with state := ClientState.Done })) := by
  have hverA : ∀ b ∈ ver, b < 128 := by
    rcases hver with h1 | h1 <;> (subst h1; decide)
  have hver32 : (32 : Nat) ∉ ver := by
    rcases hver with h1 | h1 <;> (subst h1; decide)
  have hver13 : (13 : Nat) ∉ ver := by
    rcases hver with h1 | h1 <;> (subst h1; decide)
  have hcode32 : (32 : Nat) ∉ code := fun hm => by have := hcd 32 hm; omega
  have hcode13 : (13 : Nat) ∉ code := fun hm => by have := hcd 13 hm; omega
  have hcodeA : ∀ b ∈ code, b < 128 := fun b hm => by have := hcd b hm; omega
  have hstatus : readStringUntilRaw c.channel.rx 256 [13, 10] =
      (.ok (ver ++ 32 :: (code ++ 32 :: reason)), rxH) := by
    rw [hrx]
    have hform : (ver ++ 32 :: (code ++ 32 :: reason)) ++ 13 :: 10 :: rxH =
        (ver ++ 32 :: (code ++ 32 :: reason)) ++ (13 :: [10]) ++ rxH := by simp
    rw [hform]
    refine readStringUntilRaw_spec 13 [10] _ rxH 256 ?_ (by simp; omega) ?_
    · intro hm
      rcases List.mem_append.1 hm with h1 | h2
      · exact hver13 h1
      · rcases List.mem_cons.1 h2 with h3 | h4
        · omega
        · rcases List.mem_append.1 h4 with h5 | h6
          · exact hcode13 h5
          · rcases List.mem_cons.1 h6 with h7 | h8
            · omega
            · exact hr13 h8
    · refine utf8Valid_of_ascii _ (fun b hb => ?_)
      rcases List.mem_append.1 hb with h1 | h2
      · exact hverA b h1
      · rcases List.mem_cons.1 h2 with h3 | h4
        · omega
        · rcases List.mem_append.1 h4 with h5 | h6
          · exact hcodeA b h5
          · rcases List.mem_cons.1 h6 with h7 | h8
            · omega
            · exact hrA b h8
  have hverline : readStringUntilRaw (ver ++ 32 :: (code ++ 32 :: reason)) 256 [32] =
      (.ok ver, code ++ 32 :: reason) := by
    have hform : ver ++ 32 :: (code ++ 32 :: reason) =
        ver ++ (32 :: []) ++ (code ++ 32 :: reason) := by simp
    rw [hform]
    exact readStringUntilRaw_spec 32 [] ver _ 256 hver32 (by omega)
      (utf8Valid_of_ascii ver hverA)
  have hcodetok : readStringUntilRaw (code ++ 32 :: reason) 256 [32] = (.ok code, reason) := by
    have hform : code ++ 32 :: reason = code ++ (32 :: []) ++ reason := by simp
    rw [hform]
    exact readStringUntilRaw_spec 32 [] code reason 256 hcode32 (by omega)
      (utf8Valid_of_ascii code hcodeA)
  have hvercond : ¬ (ver ≠ ascii "HTTP/1.0" ∧ ver ≠ ascii "HTTP/1.1") := by
    rcases hver with h1 | h1 <;> simp [h1]
  have hst : (readToEnd reason 256).1 = reason := by
    rw [readToEnd_eq]
    exact List.take_of_length_le (by omega)
  unfold responseCore
  rw [hstatus]
  simp only [hverline]
  rw [if_neg hvercond]
  simp only [hcodetok, hcode, hst, utf8Valid_of_ascii reason hrA, if_true]

/-- Claim C6: for a syntactically well-formed response (status line
HTTP-version SP code SP reason, then N header lines Name SP value CRLF, then
a blank CRLF line, every line fitting the internal 256-byte line buffer),
response(filter) succeeds and stores exactly the filter-accepted
(header, value) pairs in original wire order; rejected headers are consumed
from the channel (the channel ends up positioned at the body) but never
stored. -/
theorem c6_response_roundtrip (c : Client) (f : HttpHeader → Bool)
    (ver code reason body : List Nat) (k : Nat) (hdrs : List (List Nat × List Nat))
    (hstate : c.state = ClientState.ReadResponse)
    (hrx : c.channel.rx =
      (ver ++ 32 :: (code ++ 32 :: reason)) ++ 13 :: 10 ::
        (encodeHeaders hdrs ++ 13 :: 10 :: body))
    (hver : ver = ascii "HTTP/1.1" ∨ ver = ascii "HTTP/1.0")
    (hcode : parseU16 code = some k) (hcd : ∀ b ∈ code, 48 ≤ b ∧ b ≤ 57)
    (hr13 : 13 ∉ reason) (hrA : ∀ b ∈ reason, b < 128)
    (hslen : ver.length + 1 + code.length + 1 + reason.length < 256)
    (hwf : ∀ p ∈ hdrs, wfHeader p) :
    clientResponse f c =
      .ok (⟨k, reason, storedOf f hdrs⟩,
        { c with state := ClientState.Done,
                 channel := { c.channel with rx := body } }) := by
  have hstep : clientResponse f c = responseCore f { c with state := ClientState.Error } := by
    unfold clientResponse
    rw [if_neg (by simp [hstate])]
    show (if c.state ≠ ClientState.ReadResponse then OpRes.assertFail
          else responseCore f { c with state := ClientState.Error }) = _
    rw [if_neg (by simp [hstate])]
  rw [hstep,
    responseCore_status f { c with state := ClientState.Error } ver code reason _ k hrx hver
      hcode hcd hr13 hrA hslen,
    headerLoop_block f hdrs [] body hwf]
  simp [setRx]

theorem c6_response_roundtrip_witness :
    clientResponse (fun hh => decide (hh = HttpHeader.ContentType))
      ⟨⟨ascii "HTTP/1.1 200 OK\r\nContent-Type: x\r\nServer: y\r\n\r\nBD",
        [], [], none, none⟩, ClientState.ReadResponse, HttpMethod.Get, [], true⟩ =
      .ok (⟨200, ascii "OK", [(HttpHeader.ContentType, ascii "x")]⟩,
        ⟨⟨ascii "BD", [], [], none, none⟩, ClientState.Done, HttpMethod.Get, [], true⟩) := by
  have h := c6_response_roundtrip
    ⟨⟨ascii "HTTP/1.1 200 OK\r\nContent-Type: x\r\nServer: y\r\n\r\nBD",
      [], [], none, none⟩, ClientState.ReadResponse, HttpMethod.Get, [], true⟩
    (fun hh => decide (hh = HttpHeader.ContentType))
    (ascii "HTTP/1.1") (ascii "200") (ascii "OK") (ascii "BD") 200
    [(ascii "Content-Type:", ascii "x"), (ascii "Server:", ascii "y")]
    rfl (by decide) (Or.inl rfl) (by decide) (by decide) (by decide) (by decide)
    (by decide) (by decide)
  exact h.trans (by decide)

/-- Claim C10: the status line and every header line of response() go through
one fixed 256-byte scratch buffer; a status line (first part) or header line
(second part) with 256 or more bytes of content before its CRLF makes
response() fail with ChannelError(BufferFull), leaving the client in the
Error state. -/
theorem c10_response_buffer_limit (c : Client) (f : HttpHeader → Bool) :
    (c.state = ClientState.ReadResponse → (∀ b ∈ c.channel.rx.take 256, b ≠ 13) →
      256 ≤ c.channel.rx.length →
      ∃ c', clientResponse f c = .err (.ChannelError .BufferFull) c' ∧
        c'.state = ClientState.Error) ∧
    (∀ (ver code reason : List Nat) (k : Nat)
        (hdrs : List (List Nat × List Nat)) (tail : List Nat),
      c.state = ClientState.ReadResponse →
      c.channel.rx = (ver ++ 32 :: (code ++ 32 :: reason)) ++ 13 :: 10 ::
        (encodeHeaders hdrs ++ tail) →
      (ver = ascii "HTTP/1.1" ∨ ver = ascii "HTTP/1.0") →
      parseU16 code = some k → (∀ b ∈ code, 48 ≤ b ∧ b ≤ 57) →
      13 ∉ reason → (∀ b ∈ reason, b < 128) →
      ver.length + 1 + code.length + 1 + reason.length < 256 →
      (∀ p ∈ hdrs, wfHeader p) →
      (∀ b ∈ tail.take 256, b ≠ 13) → 256 ≤ tail.length →
      ∃ c', clientResponse f c = .err (.ChannelError .BufferFull) c' ∧
        c'.state = ClientState.Error) := by
  constructor
  · intro hstate hmem hlen
    have hstep : clientResponse f c = responseCore f { c with state := ClientState.Error } := by
      unfold clientResponse
      rw [if_neg (by simp [hstate])]
      show (if c.state ≠ ClientState.ReadResponse then OpRes.assertFail
            else responseCore f { c with state := ClientState.Error }) = _
      rw [if_neg (by simp [hstate])]
    rw [hstep]
    unfold responseCore
    simp only [readStringUntilRaw_bufferFull 13 [10] c.channel.rx 256 hmem hlen]
    exact ⟨_, rfl, rfl⟩
  · intro ver code reason k hdrs tail hstate hrx hver hcode hcd hr13 hrA hslen hwf hmem hlen
    have hstep : clientResponse f c = responseCore f { c with state := ClientState.Error } := by
      unfold clientResponse
      rw [if_neg (by simp [hstate])]
      show (if c.state ≠ ClientState.ReadResponse then OpRes.assertFail
            else responseCore f { c with state := ClientState.Error }) = _
      rw [if_neg (by simp [hstate])]
    rw [hstep,
      responseCore_status f { c with state := ClientState.Error } ver code reason _ k hrx hver
        hcode hcd hr13 hrA hslen,
      headerLoop_badtail f hdrs [] tail hwf hmem hlen]
    exact ⟨_, rfl, rfl⟩

theorem c10_response_buffer_limit_witness :
    ∃ c', clientResponse (fun _ => true)
      ⟨⟨List.replicate 256 97 ++ [13, 10], [], [], none, none⟩,
        ClientState.ReadResponse, HttpMethod.Get, [], true⟩ =
        .err (.ChannelError .BufferFull) c' ∧ c'.state = ClientState.Error := by
  exact (c10_response_buffer_limit
    ⟨⟨List.replicate 256 97 ++ [13, 10], [], [], none, none⟩,
      ClientState.ReadResponse, HttpMethod.Get, [], true⟩ (fun _ => true)).1
    rfl (by decide) (by decide)

/-! ## Mirrors of the repository's own tests -/

theorem sanity_url_test_query :
    parse_url (ascii "http://localhost:8000/path/to/index.html?foo=bar") =
      .ok (ascii "http", ascii "localhost", 8000, ascii "/path/to/index.html?foo=bar") := by
  decide

theorem sanity_url_test_root :
    parse_url (ascii "http://example.com/") = .ok (ascii "http", ascii "example.com", 80, ascii "/") := by
  decide

theorem sanity_url_test_host_only :
    parse_url (ascii "http://localhost:8080") = .ok (ascii "http", ascii "localhost", 8080, ascii "/") := by
  decide

theorem sanity_test_get_1_2_invalid_version :
    (match clientOpen ⟨⟨ascii "HTTP/1.2 200 OK\r\n\r\n",
        [], [], none, none⟩, ClientState.Created, HttpMethod.Get,
        ascii "http://localhost:8000/test.html", false⟩ with
      | .ok c1 =>
        (match clientSend c1 [] with
         | .ok c2 =>
           (match clientResponse (fun _ => true) c2 with
            | .err e _ => some e
            | _ => none)
         | _ => none)
      | _ => none) = some HttpError.InvalidVersion := by
  decide
